import Mathlib

/-!
Shallow embedding of `src/surgical_queue_simulator.py` (the discrete-event
surgical waiting-list simulator).  The Python code runs two simpy processes
(`patient_arrivals`, `operating_room`) over a shared FIFO patient list, a
shared arrival-time dict, shared metric lists and a global patient-id
counter, driven by simpy's event scheduler and stopped by
`env.run(until = simulation_duration_weeks * 7 + 1)`.

The embedding models:
  * the mutable core data (queue, arrival-time map as an insertion-ordered
    association list, wait-time list, weekly metric lists, id counter) as
    `CoreState`;
  * the two process bodies (`arrivalExec` for one resumption of
    `patient_arrivals`, `serveCore` for one resumption of `operating_room`);
  * simpy's scheduler: pending events carry (time, priority, event id,
    process); the scheduler repeatedly executes the lexicographically
    least pending event while its time is below the `until` bound.
    Process-initialisation events have priority 0 (simpy URGENT), timeouts
    priority 1 (simpy NORMAL); event ids increase in creation order.
    `env.run(until)` raises ValueError when `until <= env.now`
    (modelled in `run_simulation_checked`); otherwise it executes exactly
    the pending events whose key precedes `(until, URGENT, _)` — here the
    until time is `7*weeks + 1`, never a multiple of 7, so this is the
    events with time < until.
  * dict `pop` raising KeyError is modelled by `Option`: `drain` returns
    `none` when a queued id is missing from the map.

Python int subtraction is exact, so wait times are `Int`; `np.mean` is
modelled over `ℚ`.
-/

namespace SurgQueue

/-- The two simpy processes of the simulator. -/
inductive Proc where
  | arrival : Proc
  | service : Proc
deriving DecidableEq, Repr

/-- A pending simpy event: schedule time, priority (0 = URGENT for process
initialisation, 1 = NORMAL for timeouts), creation id, owning process. -/
structure Ev where
  time : Nat
  prio : Nat
  eid : Nat
  proc : Proc
deriving DecidableEq, Repr

instance : Inhabited Ev := ⟨⟨0, 0, 0, Proc.arrival⟩⟩

/-- simpy's heap order on events: lexicographic in (time, priority, id). -/
def evLt (e f : Ev) : Prop :=
  e.time < f.time ∨
    (e.time = f.time ∧ (e.prio < f.prio ∨ (e.prio = f.prio ∧ e.eid < f.eid)))

instance evLt.decidable (e f : Ev) : Decidable (evLt e f) := by
  unfold evLt; infer_instance

/-- Remove the least pending event (simpy `heappop`); event ids are unique
so there are no ties. -/
def popMinEv : List Ev → Option (Ev × List Ev)
  | [] => none
  | e :: es =>
    match popMinEv es with
    | none => some (e, [])
    | some (m, rest) => if evLt m e then some (m, e :: rest) else some (e, es)

/-- The shared mutable data of one scenario run: `current_patient_queue`,
`patient_arrival_times` (insertion-ordered, as in a Python dict),
`patient_wait_times`, `weekly_queue_lengths`, `weekly_surgeries_performed`,
and the global `next_patient_id` counter. -/
structure CoreState where
  queue : List Nat
  times : List (Nat × Nat)
  waits : List Int
  qLens : List Nat
  srv : List Nat
  nid : Nat
deriving DecidableEq, Repr

def initCore : CoreState := ⟨[], [], [], [], [], 0⟩

/-- `get_patient_id()`: increment the global counter and return it. -/
def get_patient_id (n : Nat) : Nat × Nat := (n + 1, n + 1)

/-- One batch-enqueue loop of `patient_arrivals`: `m` times, allocate an id,
record arrival time `t` in the map, append the id to the queue. -/
def enqueueCore (t : Nat) : Nat → CoreState → CoreState
  | 0, c => c
  | m + 1, c =>
    let r := get_patient_id c.nid
    enqueueCore t m
      { c with
        nid := r.2
        times := c.times ++ [(r.1, t)]
        queue := c.queue ++ [r.1] }

/-- Python `dict.pop(key)`: return the value and the dict without the key,
or `none` (KeyError) when absent. -/
def popTime (pid : Nat) : List (Nat × Nat) → Option (Nat × List (Nat × Nat))
  | [] => none
  | (k, v) :: rest =>
    if k = pid then some (v, rest)
    else (popTime pid rest).map fun r => (r.1, (k, v) :: r.2)

/-- The drain loop of `operating_room`: up to `slots` times, pop the queue
head, pop its arrival time, append the wait `now − arrival`, count the
surgery; stop early on an empty queue. -/
def drain (now : Nat) :
    Nat → List Nat → List (Nat × Nat) → List Int → Nat →
    Option (List Nat × List (Nat × Nat) × List Int × Nat)
  | 0, q, tm, w, n => some (q, tm, w, n)
  | slots + 1, q, tm, w, n =>
    match q with
    | [] => some (q, tm, w, n)
    | pid :: rest =>
      match popTime pid tm with
      | none => none
      | some r => drain now slots rest r.2 (w ++ [(now : Int) - (r.1 : Int)]) (n + 1)

/-- One resumption of `operating_room`: drain, then append this week's
surgery count and the post-drain queue length to the metric lists. -/
def serveCore (slots now : Nat) (c : CoreState) : Option CoreState :=
  (drain now slots c.queue c.times c.waits 0).map fun r =>
    { queue := r.1
      times := r.2.1
      waits := r.2.2.1
      qLens := c.qLens ++ [r.1.length]
      srv := c.srv ++ [r.2.2.2]
      nid := c.nid }

/-- The scenario parameters consumed by the two processes. -/
structure Params where
  avgArrivals : Nat
  initQ : Nat
  slots : Nat
deriving DecidableEq, Repr

/-- One resumption of `patient_arrivals`: on the first resumption enqueue
the initial backlog (arrival time literal 0), then always enqueue the
weekly batch at the current clock value. -/
def arrivalExec (p : Params) (t : Nat) (started : Bool) (c : CoreState) : CoreState :=
  enqueueCore t p.avgArrivals (if started then c else enqueueCore 0 p.initQ c)

/-- Full simpy environment state: clock, pending events, next event id,
whether `patient_arrivals` has run its pre-loop part, the log of executed
events (ghost, for ordering statements), and the shared data. -/
structure SimState where
  now : Nat
  events : List Ev
  nextEid : Nat
  arrivalStarted : Bool
  execLog : List Ev
  core : CoreState
deriving DecidableEq, Repr

/-- Execute one pending event: pop the least event, advance the clock to its
time, run the owning process body to its next `yield env.timeout(7)`, and
schedule that timeout (priority NORMAL, fresh event id). -/
def step (p : Params) (s : SimState) : Option SimState :=
  match popMinEv s.events with
  | none => none
  | some er =>
    match er.1.proc with
    | Proc.arrival =>
      some
        { now := er.1.time
          events := er.2 ++ [⟨er.1.time + 7, 1, s.nextEid, Proc.arrival⟩]
          nextEid := s.nextEid + 1
          arrivalStarted := true
          execLog := s.execLog ++ [er.1]
          core := arrivalExec p er.1.time s.arrivalStarted s.core }
    | Proc.service =>
      (serveCore p.slots er.1.time s.core).map fun c =>
        { now := er.1.time
          events := er.2 ++ [⟨er.1.time + 7, 1, s.nextEid, Proc.service⟩]
          nextEid := s.nextEid + 1
          arrivalStarted := s.arrivalStarted
          execLog := s.execLog ++ [er.1]
          core := c }

/-- simpy's main loop with an `until` bound: execute pending events while
the least pending event is due before `u`.  `fuel` bounds the recursion;
the theorems show the run is fuel-independent once `fuel ≥ 2*(weeks+1)`. -/
def runEvents (p : Params) (u : Nat) : Nat → SimState → Option SimState
  | 0, s =>
    match popMinEv s.events with
    | none => some s
    | some er => if er.1.time < u then none else some s
  | fuel + 1, s =>
    match popMinEv s.events with
    | none => some s
    | some er =>
      if er.1.time < u then (step p s).bind (runEvents p u fuel) else some s

/-- `run_simulation`'s fresh environment: both processes registered (arrival
first), their initialisation events URGENT at time 0, all collectors reset. -/
def initState (p : Params) : SimState :=
  { now := 0
    events := [⟨0, 0, 0, Proc.arrival⟩, ⟨0, 0, 1, Proc.service⟩]
    nextEid := 2
    arrivalStarted := false
    execLog := []
    core := initCore }

/-- The results dict of `run_simulation` (sans the display-only name). -/
structure SimResults where
  avg_wait_time : ℚ
  final_queue_length : Nat
  total_surgeries : Nat
  weekly_queue_lengths : List Nat
  weekly_surgeries : List Nat
  wait_times : List Int
deriving DecidableEq, Repr

/-- Package the final state into results: `np.mean` of the waits (0 when
none), last weekly queue length (initial backlog when no week elapsed),
`np.sum` of weekly surgeries. -/
def mkResults (initQ : Nat) (s : SimState) : SimResults :=
  { avg_wait_time :=
      if s.core.waits = [] then 0
      else (s.core.waits.sum : ℚ) / (s.core.waits.length : ℚ)
    final_queue_length := (s.core.qLens.getLast?).getD initQ
    total_surgeries := s.core.srv.sum
    weekly_queue_lengths := s.core.qLens
    weekly_surgeries := s.core.srv
    wait_times := s.core.waits }

/-- `run_simulation(avg_arrivals_per_week, initial_queue_size,
slots_per_week, simulation_duration_weeks)`: run the scheduler with
`until = weeks*7 + 1` and package the results. -/
def run_simulation (avgArrivals initQ slots weeks : Nat) : Option SimResults :=
  (runEvents ⟨avgArrivals, initQ, slots⟩ (7 * weeks + 1) (2 * weeks + 2)
      (initState ⟨avgArrivals, initQ, slots⟩)).map (mkResults initQ)

/-- `run_simulation` over a possibly negative week count: simpy's
`env.run(until)` raises `ValueError` when `until ≤ env.now` (= 0 here),
before any event is processed. -/
def run_simulation_checked (avgArrivals initQ slots : Nat) (weeks : Int) :
    Except String SimResults :=
  if 7 * weeks + 1 ≤ 0 then
    Except.error "until must be greater than the current simulation time"
  else
    match run_simulation avgArrivals initQ slots weeks.toNat with
    | some r => Except.ok r
    | none => Except.error "out of fuel"

/-- The module-level globals of the Python file. -/
structure Globals where
  patient_arrival_times : List (Nat × Nat)
  patient_wait_times : List Int
  weekly_queue_lengths : List Nat
  weekly_surgeries_performed : List Nat
  next_patient_id : Nat
deriving DecidableEq, Repr

/-- `run_simulation` threaded through the module globals: the function
reassigns every global to a fresh empty value before creating the
environment, so the incoming globals are never read; the outgoing globals
are the final collector values. -/
def run_simulation_g (g : Globals) (avgArrivals initQ slots weeks : Nat) :
    Option SimResults × Globals :=
  match runEvents ⟨avgArrivals, initQ, slots⟩ (7 * weeks + 1) (2 * weeks + 2)
      (initState ⟨avgArrivals, initQ, slots⟩) with
  | some s =>
    (some (mkResults initQ s),
      ⟨s.core.times, s.core.waits, s.core.qLens, s.core.srv, s.core.nid⟩)
  | none => (none, ⟨[], [], [], [], 0⟩)

/-- The value returned by the `j`-th call (0-based) of `get_patient_id`
when the global counter starts at `c`. -/
def nthId (c : Nat) : Nat → Nat
  | 0 => (get_patient_id c).1
  | j + 1 => nthId (get_patient_id c).2 j

/-- Closed-form queue length recorded for week `k` (rounds run at times
0, 7, …): available = previous length + weekly batch, minus served. -/
def qAfter (p : Params) : Nat → Nat
  | 0 => p.initQ + p.avgArrivals - min p.slots (p.initQ + p.avgArrivals)
  | k + 1 => qAfter p k + p.avgArrivals - min p.slots (qAfter p k + p.avgArrivals)

/-- Closed-form surgeries performed in week `k`. -/
def srvAt (p : Params) : Nat → Nat
  | 0 => min p.slots (p.initQ + p.avgArrivals)
  | k + 1 => min p.slots (qAfter p k + p.avgArrivals)

/-- The arrival-process event executed at week `k` (time `7k`). -/
def arrEv (k : Nat) : Ev := ⟨7 * k, if k = 0 then 0 else 1, 2 * k, Proc.arrival⟩

/-- The service-process event executed at week `k` (time `7k`). -/
def srvEv (k : Nat) : Ev := ⟨7 * k, if k = 0 then 0 else 1, 2 * k + 1, Proc.service⟩

/-- The executed-event log after completing weeks 0..k: each week runs the
arrival event, then the service event. -/
def execLogAt (k : Nat) : List Ev :=
  (List.range (k + 1)).flatMap fun i => [arrEv i, srvEv i]

/-- The core state after completing rounds 0..k of the per-period reference
recursion (round 0 includes the initial backlog). -/
def coreRun (p : Params) : Nat → Option CoreState
  | 0 => serveCore p.slots 0 (arrivalExec p 0 false initCore)
  | k + 1 =>
    (coreRun p k).bind fun c =>
      serveCore p.slots (7 * (k + 1)) (arrivalExec p (7 * (k + 1)) true c)

/-- Scheduler state after both events of weeks 0..k have executed. -/
def mkState (k : Nat) (c : CoreState) : SimState :=
  { now := 7 * k
    events :=
      [⟨7 * k + 7, 1, 2 * k + 2, Proc.arrival⟩, ⟨7 * k + 7, 1, 2 * k + 3, Proc.service⟩]
    nextEid := 2 * k + 4
    arrivalStarted := true
    execLog := execLogAt k
    core := c }

/-- Scheduler state between week (k+1)'s arrival event and service event. -/
def midState (p : Params) (k : Nat) (c : CoreState) : SimState :=
  { now := 7 * k + 7
    events :=
      [⟨7 * k + 7, 1, 2 * k + 3, Proc.service⟩, ⟨7 * k + 14, 1, 2 * k + 4, Proc.arrival⟩]
    nextEid := 2 * k + 5
    arrivalStarted := true
    execLog := execLogAt k ++ [arrEv (k + 1)]
    core := enqueueCore (7 * k + 7) p.avgArrivals c }

/-- Scheduler state between the first arrival event and first service
event (time 0). -/
def midState0 (p : Params) : SimState :=
  { now := 0
    events := [⟨0, 0, 1, Proc.service⟩, ⟨7, 1, 2, Proc.arrival⟩]
    nextEid := 3
    arrivalStarted := true
    execLog := [arrEv 0]
    core := arrivalExec p 0 false initCore }

/-- Queue/arrival-map consistency: the queued ids are exactly the map keys
in order, without duplicates, and no id exceeds the allocator counter. -/
def QueueMapInv (c : CoreState) : Prop :=
  c.queue = c.times.map Prod.fst ∧ c.queue.Nodup ∧ ∀ pid ∈ c.queue, pid ≤ c.nid

instance QueueMapInv.decidable (c : CoreState) : Decidable (QueueMapInv c) := by
  unfold QueueMapInv; infer_instance

/-- Data invariant carried through the per-period recursion. -/
def CoreInv (p : Params) (k : Nat) (c : CoreState) : Prop :=
  c.queue = c.times.map Prod.fst ∧
  c.queue.length = qAfter p k ∧
  c.qLens = (List.range (k + 1)).map (qAfter p) ∧
  c.srv = (List.range (k + 1)).map (srvAt p) ∧
  c.waits.length = c.srv.sum ∧
  c.nid = p.initQ + p.avgArrivals * (k + 1)

/-! ### Lemmas about the batch-enqueue loop -/

theorem enqueueCore_fields (t : Nat) :
    ∀ (m : Nat) (c : CoreState),
      (enqueueCore t m c).queue.length = c.queue.length + m ∧
      (enqueueCore t m c).nid = c.nid + m ∧
      (enqueueCore t m c).waits = c.waits ∧
      (enqueueCore t m c).qLens = c.qLens ∧
      (enqueueCore t m c).srv = c.srv := by
  intro m
  induction m with
  | zero => intro c; simp [enqueueCore]
  | succ m ih =>
    intro c
    obtain ⟨h1, h2, h3, h4, h5⟩ := ih
      { c with
        nid := c.nid + 1
        times := c.times ++ [(c.nid + 1, t)]
        queue := c.queue ++ [c.nid + 1] }
    have hstep : enqueueCore t (m + 1) c =
        enqueueCore t m
          { c with
            nid := c.nid + 1
            times := c.times ++ [(c.nid + 1, t)]
            queue := c.queue ++ [c.nid + 1] } := rfl
    rw [hstep]
    refine ⟨?_, ?_, ?_, ?_, ?_⟩ <;> simp [h1, h2, h3, h4, h5] <;> omega

theorem enqueueCore_map_fst (t : Nat) :
    ∀ (m : Nat) (c : CoreState), c.queue = c.times.map Prod.fst →
      (enqueueCore t m c).queue = (enqueueCore t m c).times.map Prod.fst := by
  intro m
  induction m with
  | zero => intro c h; simpa [enqueueCore] using h
  | succ m ih =>
    intro c h
    exact ih _ (by simp [h])

theorem enqueueCore_inv (t : Nat) :
    ∀ (m : Nat) (c : CoreState), QueueMapInv c → QueueMapInv (enqueueCore t m c) := by
  intro m
  induction m with
  | zero => intro c h; simpa [enqueueCore] using h
  | succ m ih =>
    intro c h
    obtain ⟨h1, h2, h3⟩ := h
    refine ih _ ⟨by simp [h1], ?_, ?_⟩
    · simp only [get_patient_id]
      rw [List.nodup_append]
      refine ⟨h2, List.nodup_singleton _, ?_⟩
      intro x hx hy
      have := h3 x hx
      simp at hy
      omega
    · intro pid hpid
      simp [get_patient_id] at hpid ⊢
      rcases hpid with h | h
      · have := h3 pid h; omega
      · omega

/-! ### Lemmas about the drain loop -/

theorem popTime_head (k v : Nat) (rest : List (Nat × Nat)) :
    popTime k ((k, v) :: rest) = some (v, rest) := by
  simp [popTime]

theorem drain_eq (t : Nat) :
    ∀ (slots : Nat) (q : List Nat) (tm : List (Nat × Nat)) (w : List Int) (n : Nat),
      q = tm.map Prod.fst →
      drain t slots q tm w n =
        some (q.drop (min slots q.length), tm.drop (min slots q.length),
          w ++ (tm.take (min slots q.length)).map (fun pr => (t : Int) - (pr.2 : Int)),
          n + min slots q.length) := by
  intro slots
  induction slots with
  | zero => intro q tm w n h; simp [drain]
  | succ slots ih =>
    intro q tm w n h
    match q, tm, h with
    | [], tm, h =>
      have : tm = [] := by
        cases tm with
        | nil => rfl
        | cons a l => simp at h
      subst this
      simp [drain]
    | pid :: rest, tm, h =>
      match tm with
      | [] => simp at h
      | (k, v) :: tl =>
        have hk : k = pid := by simp at h; exact h.1.symm
        have hrest : rest = tl.map Prod.fst := by simp at h; exact h.2
        subst hk
        rw [show drain t (slots + 1) (k :: rest) ((k, v) :: tl) w n =
            drain t slots rest tl (w ++ [(t : Int) - (v : Int)]) (n + 1) by
          simp [drain, popTime_head]]
        rw [ih rest tl _ _ hrest]
        have hmin : min (slots + 1) (rest.length + 1) = min slots rest.length + 1 :=
          Nat.succ_min_succ slots rest.length
        simp [hmin]
        omega

theorem serveCore_spec (slots t : Nat) (c : CoreState)
    (h : c.queue = c.times.map Prod.fst) :
    serveCore slots t c =
      some
        { queue := c.queue.drop (min slots c.queue.length)
          times := c.times.drop (min slots c.queue.length)
          waits :=
            c.waits ++ (c.times.take (min slots c.queue.length)).map
              (fun pr => (t : Int) - (pr.2 : Int))
          qLens := c.qLens ++ [c.queue.length - min slots c.queue.length]
          srv := c.srv ++ [min slots c.queue.length]
          nid := c.nid } := by
  rw [serveCore, drain_eq t slots c.queue c.times c.waits 0 h]
  simp [List.length_drop]

/-! ### Generic helpers about `List.range` based lists -/

theorem getD_map_range {α : Type} (d : α) :
    ∀ (n k : Nat) (f : Nat → α), k < n → ((List.range n).map f).getD k d = f k := by
  intro n
  induction n with
  | zero => intro k f h; omega
  | succ n ih =>
    intro k f h
    rw [List.range_succ_eq_map]
    cases k with
    | zero => simp
    | succ k =>
      simp only [List.map_cons, List.getD_cons_succ, List.map_map]
      have := ih k (f ∘ Nat.succ) (by omega)
      simpa using this

theorem getLast?_map_range {α : Type} (n : Nat) (f : Nat → α) :
    ((List.range (n + 1)).map f).getLast? = some (f n) := by
  rw [List.range_succ, List.map_append]
  simp

/-! ### The executed-event log -/

theorem execLogAt_zero : execLogAt 0 = [arrEv 0, srvEv 0] := rfl

theorem execLogAt_succ (k : Nat) :
    execLogAt (k + 1) = execLogAt k ++ [arrEv (k + 1), srvEv (k + 1)] := by
  rw [execLogAt, execLogAt, List.range_succ, List.flatMap_append]
  simp

theorem execLogAt_length (k : Nat) : (execLogAt k).length = 2 * (k + 1) := by
  induction k with
  | zero => rw [execLogAt_zero]; rfl
  | succ k ih => rw [execLogAt_succ, List.length_append, ih]; simp; omega

theorem execLogAt_getD (W : Nat) :
    ∀ k, k ≤ W →
      (execLogAt W).getD (2 * k) default = arrEv k ∧
      (execLogAt W).getD (2 * k + 1) default = srvEv k := by
  induction W with
  | zero =>
    intro k hk
    have : k = 0 := by omega
    subst this
    rw [execLogAt_zero]
    constructor <;> rfl
  | succ W ih =>
    intro k hk
    rw [execLogAt_succ]
    rcases Nat.lt_or_ge k (W + 1) with h | h
    · have hk2 : 2 * k + 1 < (execLogAt W).length := by rw [execLogAt_length]; omega
      rw [List.getD_append _ _ _ _ (by omega), List.getD_append _ _ _ _ hk2]
      exact ih k (by omega)
    · have hkW : k = W + 1 := by omega
      subst hkW
      have hlen : (execLogAt W).length = 2 * (W + 1) := execLogAt_length W
      rw [List.getD_append_right _ _ _ _ (by omega), List.getD_append_right _ _ _ _ (by omega),
        hlen]
      constructor
      · rw [show 2 * (W + 1) - 2 * (W + 1) = 0 by omega]; rfl
      · rw [show 2 * (W + 1) + 1 - 2 * (W + 1) = 1 by omega]; rfl

/-! ### The per-period reference recursion -/

theorem serve_enqueue_facts (p : Params) (t : Nat) (c : CoreState)
    (hq : c.queue = c.times.map Prod.fst) :
    ∃ d, serveCore p.slots t (enqueueCore t p.avgArrivals c) = some d ∧
      d.queue = d.times.map Prod.fst ∧
      d.queue.length =
        c.queue.length + p.avgArrivals -
          min p.slots (c.queue.length + p.avgArrivals) ∧
      d.qLens =
        c.qLens ++ [c.queue.length + p.avgArrivals -
          min p.slots (c.queue.length + p.avgArrivals)] ∧
      d.srv = c.srv ++ [min p.slots (c.queue.length + p.avgArrivals)] ∧
      d.waits.length =
        c.waits.length + min p.slots (c.queue.length + p.avgArrivals) ∧
      d.nid = c.nid + p.avgArrivals := by
  obtain ⟨hlen, hnid, hw, hql, hsrv⟩ := enqueueCore_fields t p.avgArrivals c
  have hqe : (enqueueCore t p.avgArrivals c).queue =
      (enqueueCore t p.avgArrivals c).times.map Prod.fst :=
    enqueueCore_map_fst t p.avgArrivals c hq
  have htimeslen : (enqueueCore t p.avgArrivals c).times.length =
      c.queue.length + p.avgArrivals := by
    have h2 := congrArg List.length hqe
    rw [List.length_map] at h2
    omega
  refine ⟨_, serveCore_spec p.slots t (enqueueCore t p.avgArrivals c) hqe, ?_, ?_, ?_, ?_,
    ?_, ?_⟩
  · show (enqueueCore t p.avgArrivals c).queue.drop _ =
      ((enqueueCore t p.avgArrivals c).times.drop _).map Prod.fst
    rw [hqe, List.map_drop]
  · show ((enqueueCore t p.avgArrivals c).queue.drop _).length = _
    rw [List.length_drop, hlen]
  · show (enqueueCore t p.avgArrivals c).qLens ++ _ = _
    rw [hql, hlen]
  · show (enqueueCore t p.avgArrivals c).srv ++ _ = _
    rw [hsrv, hlen]
  · show ((enqueueCore t p.avgArrivals c).waits ++ _).length = _
    rw [List.length_append, List.length_map, List.length_take, hw, hlen, htimeslen]
    omega
  · exact hnid

theorem qAfter_zero (p : Params) :
    qAfter p 0 = p.initQ + p.avgArrivals - min p.slots (p.initQ + p.avgArrivals) := rfl

theorem qAfter_succ (p : Params) (k : Nat) :
    qAfter p (k + 1) =
      qAfter p k + p.avgArrivals - min p.slots (qAfter p k + p.avgArrivals) := rfl

theorem srvAt_zero (p : Params) :
    srvAt p 0 = min p.slots (p.initQ + p.avgArrivals) := rfl

theorem srvAt_succ (p : Params) (k : Nat) :
    srvAt p (k + 1) = min p.slots (qAfter p k + p.avgArrivals) := rfl

theorem coreRun_facts (p : Params) :
    ∀ k, ∃ c, coreRun p k = some c ∧ CoreInv p k c := by
  intro k
  induction k with
  | zero =>
    have h0 : (enqueueCore 0 p.initQ initCore).queue =
        (enqueueCore 0 p.initQ initCore).times.map Prod.fst :=
      enqueueCore_map_fst 0 p.initQ initCore (by simp [initCore])
    obtain ⟨hlen0, hnid0, hw0, hql0, hsrv0⟩ := enqueueCore_fields 0 p.initQ initCore
    rw [show initCore.queue.length = 0 from rfl, Nat.zero_add] at hlen0
    rw [show initCore.nid = 0 from rfl, Nat.zero_add] at hnid0
    rw [show initCore.waits = ([] : List Int) from rfl] at hw0
    rw [show initCore.qLens = ([] : List Nat) from rfl] at hql0
    rw [show initCore.srv = ([] : List Nat) from rfl] at hsrv0
    obtain ⟨d, hd, hdq, hdlen, hdql, hdsrv, hdw, hdnid⟩ :=
      serve_enqueue_facts p 0 (enqueueCore 0 p.initQ initCore) h0
    rw [hlen0] at hdlen hdql hdsrv hdw
    refine ⟨d, ?_, hdq, ?_, ?_, ?_, ?_, ?_⟩
    · rw [show coreRun p 0 = serveCore p.slots 0 (arrivalExec p 0 false initCore) from rfl]
      rw [show arrivalExec p 0 false initCore =
          enqueueCore 0 p.avgArrivals (enqueueCore 0 p.initQ initCore) by
        simp [arrivalExec]]
      exact hd
    · rw [hdlen, qAfter_zero]
    · rw [hdql, hql0, (qAfter_zero p).symm]; rfl
    · rw [hdsrv, hsrv0, (srvAt_zero p).symm]; rfl
    · rw [hdw, hdsrv, hw0, hsrv0, (srvAt_zero p).symm]
      simp only [List.length_nil, List.nil_append, List.sum_cons, List.sum_nil]
      omega
    · rw [hdnid, hnid0]; ring
  | succ k ih =>
    obtain ⟨c, hc, hq, hlen, hql, hsrv, hw, hnid⟩ := ih
    obtain ⟨d, hd, hdq, hdlen, hdql, hdsrv, hdw, hdnid⟩ :=
      serve_enqueue_facts p (7 * (k + 1)) c hq
    rw [hlen] at hdlen hdql hdsrv hdw
    refine ⟨d, ?_, hdq, ?_, ?_, ?_, ?_, ?_⟩
    · rw [show coreRun p (k + 1) =
          (coreRun p k).bind (fun c => serveCore p.slots (7 * (k + 1))
            (arrivalExec p (7 * (k + 1)) true c)) from rfl, hc]
      simpa [arrivalExec] using hd
    · rw [hdlen, qAfter_succ]
    · rw [hdql, hql, (qAfter_succ p k).symm,
        show List.range (k + 1 + 1) = List.range (k + 1) ++ [k + 1] from List.range_succ (k + 1),
        List.map_append]
      rfl
    · rw [hdsrv, hsrv, (srvAt_succ p k).symm,
        show List.range (k + 1 + 1) = List.range (k + 1) ++ [k + 1] from List.range_succ (k + 1),
        List.map_append]
      rfl
    · rw [hdw, hdsrv, hw, hsrv, (srvAt_succ p k).symm]
      simp only [List.sum_append, List.sum_cons, List.sum_nil]
      omega
    · rw [hdnid, hnid]; ring

/-- Entity conservation at the closed-form level: everything that entered
by week `k` was either served or is still queued. -/
theorem conservation (p : Params) :
    ∀ k, p.initQ + p.avgArrivals * (k + 1) =
      ((List.range (k + 1)).map (srvAt p)).sum + qAfter p k := by
  intro k
  induction k with
  | zero =>
    rw [show ((List.range 1).map (srvAt p)).sum = srvAt p 0 + 0 from rfl, srvAt_zero,
      qAfter_zero]
    omega
  | succ k ih =>
    rw [List.range_succ, List.map_append, List.sum_append]
    simp only [List.map_cons, List.map_nil, List.sum_cons, List.sum_nil]
    rw [qAfter_succ, srvAt_succ, Nat.mul_succ p.avgArrivals (k + 1)]
    omega

/-! ### Scheduler lemmas -/

theorem popMin_pair (a b : Ev) (h : ¬ evLt b a) : popMinEv [a, b] = some (a, [b]) := by
  simp only [popMinEv]
  rw [if_neg h]

theorem popMin_mk (k : Nat) (c : CoreState) :
    popMinEv (mkState k c).events =
      some (⟨7 * k + 7, 1, 2 * k + 2, Proc.arrival⟩,
        [⟨7 * k + 7, 1, 2 * k + 3, Proc.service⟩]) := by
  apply popMin_pair
  simp [evLt]

theorem popMin_mid (p : Params) (k : Nat) (c : CoreState) :
    popMinEv (midState p k c).events =
      some (⟨7 * k + 7, 1, 2 * k + 3, Proc.service⟩,
        [⟨7 * k + 14, 1, 2 * k + 4, Proc.arrival⟩]) := by
  apply popMin_pair
  simp [evLt]

theorem popMin_init (p : Params) :
    popMinEv (initState p).events =
      some (⟨0, 0, 0, Proc.arrival⟩, [⟨0, 0, 1, Proc.service⟩]) := by
  apply popMin_pair
  simp [evLt]

theorem popMin_mid0 (p : Params) :
    popMinEv (midState0 p).events =
      some (⟨0, 0, 1, Proc.service⟩, [⟨7, 1, 2, Proc.arrival⟩]) := by
  apply popMin_pair
  simp [evLt]

theorem step_arr (p : Params) (k : Nat) (c : CoreState) :
    step p (mkState k c) = some (midState p k c) := by
  rw [step, popMin_mk]
  rfl

theorem step_srv (p : Params) (k : Nat) (c d : CoreState)
    (h : serveCore p.slots (7 * k + 7) (enqueueCore (7 * k + 7) p.avgArrivals c) = some d) :
    step p (midState p k c) = some (mkState (k + 1) d) := by
  rw [step, popMin_mid]
  show (serveCore p.slots (7 * k + 7) (enqueueCore (7 * k + 7) p.avgArrivals c)).map _ = _
  rw [h]
  have hlog : (execLogAt k ++ [arrEv (k + 1)]) ++
      [(⟨7 * k + 7, 1, 2 * k + 3, Proc.service⟩ : Ev)] = execLogAt (k + 1) := by
    rw [execLogAt_succ, List.append_assoc]
    rfl
  show some
      ({ now := 7 * k + 7
         events := [⟨7 * k + 14, 1, 2 * k + 4, Proc.arrival⟩,
           ⟨7 * k + 14, 1, 2 * k + 5, Proc.service⟩]
         nextEid := 2 * k + 6
         arrivalStarted := true
         execLog := (execLogAt k ++ [arrEv (k + 1)]) ++
           [(⟨7 * k + 7, 1, 2 * k + 3, Proc.service⟩ : Ev)]
         core := d } : SimState) = some (mkState (k + 1) d)
  rw [hlog]
  rfl

theorem step_init_arr (p : Params) : step p (initState p) = some (midState0 p) := by
  rw [step, popMin_init]
  rfl

theorem step_init_srv (p : Params) (d : CoreState)
    (h : serveCore p.slots 0 (arrivalExec p 0 false initCore) = some d) :
    step p (midState0 p) = some (mkState 0 d) := by
  rw [step, popMin_mid0]
  show (serveCore p.slots 0 (arrivalExec p 0 false initCore)).map _ = _
  rw [h]
  rfl

theorem runEvents_stop (p : Params) (u f : Nat) (s : SimState) (e : Ev) (r : List Ev)
    (hpop : popMinEv s.events = some (e, r)) (ht : ¬ e.time < u) :
    runEvents p u f s = some s := by
  cases f <;> simp [runEvents, hpop, ht]

theorem runEvents_step (p : Params) (u f : Nat) (s : SimState) (e : Ev) (r : List Ev)
    (hpop : popMinEv s.events = some (e, r)) (ht : e.time < u) :
    runEvents p u (f + 1) s = (step p s).bind (runEvents p u f) := by
  rw [runEvents, hpop]
  show (if e.time < u then (step p s).bind (runEvents p u f) else some s) = _
  rw [if_pos ht]

/-- Bridge between the scheduler run and the per-period recursion: from the
state after week `k`, running the scheduler with horizon `k + d` lands in
the state after week `k + d` (with any spare fuel). -/
theorem runEvents_bridge (p : Params) :
    ∀ (d k f : Nat) (c : CoreState), coreRun p k = some c →
      runEvents p (7 * (k + d) + 1) (2 * d + f) (mkState k c) =
        (coreRun p (k + d)).map (mkState (k + d)) := by
  intro d
  induction d with
  | zero =>
    intro k f c hc
    have hstop : runEvents p (7 * (k + 0) + 1) (2 * 0 + f) (mkState k c) =
        some (mkState k c) :=
      runEvents_stop p _ _ _ _ _ (popMin_mk k c)
        (show ¬ (7 * k + 7 : Nat) < 7 * (k + 0) + 1 by omega)
    rw [hstop, show k + 0 = k from rfl, hc]
    rfl
  | succ d ih =>
    intro k f c hc
    obtain ⟨c2, hc2, _⟩ := coreRun_facts p (k + 1)
    have hserve : serveCore p.slots (7 * k + 7)
        (enqueueCore (7 * k + 7) p.avgArrivals c) = some c2 := by
      have hunfold : coreRun p (k + 1) =
          (coreRun p k).bind (fun x => serveCore p.slots (7 * (k + 1))
            (arrivalExec p (7 * (k + 1)) true x)) := rfl
      rw [hunfold, hc] at hc2
      simpa [arrivalExec, show 7 * (k + 1) = 7 * k + 7 by ring] using hc2
    have hfuel : 2 * (d + 1) + f = (2 * d + f + 1) + 1 := by ring
    rw [hfuel,
      runEvents_step p _ _ _ _ _ (popMin_mk k c)
        (show (7 * k + 7 : Nat) < 7 * (k + (d + 1)) + 1 by omega),
      step_arr]
    show runEvents p (7 * (k + (d + 1)) + 1) (2 * d + f + 1) (midState p k c) = _
    rw [runEvents_step p _ _ _ _ _ (popMin_mid p k c)
        (show (7 * k + 7 : Nat) < 7 * (k + (d + 1)) + 1 by omega),
      step_srv p k c c2 hserve]
    show runEvents p (7 * (k + (d + 1)) + 1) (2 * d + f) (mkState (k + 1) c2) = _
    rw [show 7 * (k + (d + 1)) + 1 = 7 * ((k + 1) + d) + 1 by ring,
      show k + (d + 1) = (k + 1) + d by ring]
    exact ih (k + 1) f c2 hc2

/-- The full scheduler run equals the per-period recursion, with any spare
fuel beyond the `2*(weeks+1)` events that are actually executed. -/
theorem runEvents_init_eq (p : Params) (W f : Nat) :
    runEvents p (7 * W + 1) (2 * W + 2 + f) (initState p) =
      (coreRun p W).map (mkState W) := by
  obtain ⟨c0, hc0, _⟩ := coreRun_facts p 0
  have hserve : serveCore p.slots 0 (arrivalExec p 0 false initCore) = some c0 := hc0
  have hfuel : 2 * W + 2 + f = (2 * W + f + 1) + 1 := by ring
  rw [hfuel,
    runEvents_step p _ _ _ _ _ (popMin_init p) (show (0 : Nat) < 7 * W + 1 by omega),
    step_init_arr]
  show runEvents p (7 * W + 1) (2 * W + f + 1) (midState0 p) = _
  rw [runEvents_step p _ _ _ _ _ (popMin_mid0 p) (show (0 : Nat) < 7 * W + 1 by omega),
    step_init_srv p c0 hserve]
  show runEvents p (7 * W + 1) (2 * W + f) (mkState 0 c0) = _
  have hb := runEvents_bridge p W 0 f c0 hc0
  rw [show 7 * (0 + W) + 1 = 7 * W + 1 by ring, show (0 : Nat) + W = W by omega] at hb
  exact hb

/-- `run_simulation` never fails and its results are the closed forms. -/
theorem run_simulation_facts (A B C W : Nat) :
    ∃ r, run_simulation A B C W = some r ∧
      r.weekly_queue_lengths = (List.range (W + 1)).map (qAfter ⟨A, B, C⟩) ∧
      r.weekly_surgeries = (List.range (W + 1)).map (srvAt ⟨A, B, C⟩) ∧
      r.total_surgeries = ((List.range (W + 1)).map (srvAt ⟨A, B, C⟩)).sum ∧
      r.final_queue_length = qAfter ⟨A, B, C⟩ W ∧
      r.wait_times.length = r.total_surgeries ∧
      (r.wait_times = [] → r.avg_wait_time = 0) := by
  obtain ⟨c, hc, hq, hlen, hql, hsrv, hw, hnid⟩ := coreRun_facts ⟨A, B, C⟩ W
  have hrun : run_simulation A B C W = some (mkResults B (mkState W c)) := by
    rw [run_simulation, show 2 * W + 2 = 2 * W + 2 + 0 from rfl, runEvents_init_eq, hc]
    rfl
  refine ⟨mkResults B (mkState W c), hrun, ?_, ?_, ?_, ?_, ?_, ?_⟩
  · show c.qLens = _
    exact hql
  · show c.srv = _
    exact hsrv
  · show c.srv.sum = _
    rw [hsrv]
  · show (c.qLens.getLast?).getD B = _
    rw [hql, getLast?_map_range]
    rfl
  · show c.waits.length = c.srv.sum
    exact hw
  · intro hempty
    show (if c.waits = [] then 0 else _) = 0
    rw [if_pos (show c.waits = [] from hempty)]

/-! ### Queue/arrival-map invariant preservation -/

theorem serveCore_inv (slots t : Nat) (c d : CoreState) (hinv : QueueMapInv c)
    (h : serveCore slots t c = some d) : QueueMapInv d := by
  obtain ⟨hq, hnd, hb⟩ := hinv
  rw [serveCore_spec slots t c hq] at h
  injection h with h
  subst h
  refine ⟨?_, ?_, ?_⟩
  · show c.queue.drop _ = (c.times.drop _).map Prod.fst
    rw [hq, List.map_drop]
  · exact List.Nodup.sublist (List.drop_sublist _ _) hnd
  · intro pid hpid
    exact hb pid (List.mem_of_mem_drop hpid)

theorem serveCore_success (slots t : Nat) (c : CoreState) (hinv : QueueMapInv c) :
    ∃ d, serveCore slots t c = some d :=
  ⟨_, serveCore_spec slots t c hinv.1⟩

theorem arrivalExec_inv (p : Params) (t : Nat) (b : Bool) (c : CoreState)
    (hinv : QueueMapInv c) : QueueMapInv (arrivalExec p t b c) := by
  cases b with
  | false =>
    exact enqueueCore_inv t p.avgArrivals _ (enqueueCore_inv 0 p.initQ c hinv)
  | true =>
    exact enqueueCore_inv t p.avgArrivals c hinv

theorem step_inv (p : Params) (s t : SimState) (hinv : QueueMapInv s.core)
    (h : step p s = some t) : QueueMapInv t.core := by
  rw [step] at h
  split at h
  · exact absurd h (by simp)
  · split at h
    · injection h with h
      subst h
      exact arrivalExec_inv p _ _ _ hinv
    · rw [Option.map_eq_some'] at h
      obtain ⟨d, hd, hft⟩ := h
      subst hft
      exact serveCore_inv _ _ _ _ hinv hd

/-! ### The id allocator -/

theorem nthId_eq (j c : Nat) : nthId c j = c + j + 1 := by
  induction j generalizing c with
  | zero => rfl
  | succ j ih =>
    show nthId (c + 1) j = _
    rw [ih]
    ring

/-! ### Zero-capacity runs -/

theorem srvAt_slots_zero (A B : Nat) : ∀ k, srvAt ⟨A, B, 0⟩ k = 0 := by
  intro k
  cases k with
  | zero =>
    rw [srvAt_zero]
    show min 0 (B + A) = 0
    omega
  | succ k =>
    rw [srvAt_succ]
    show min 0 _ = 0
    omega

/-! ### The globals-threaded runner -/

theorem run_g_fst (g : Globals) (A B C W : Nat) :
    (run_simulation_g g A B C W).1 = run_simulation A B C W := by
  cases h : runEvents ⟨A, B, C⟩ (7 * W + 1) (2 * W + 2) (initState ⟨A, B, C⟩) <;>
    simp [run_simulation_g, run_simulation, h]

/-! ### Claims -/

/-- C1: for every run of `run_simulation` and every period index `k ≥ 1`,
the recorded sequences satisfy
`queue[k] = queue[k-1] + arrivals_per_period − served[k]`, and
`served[k] ≤ queue[k-1] + arrivals_per_period` — the service round cannot
serve more entities than are available in that period. -/
theorem claim_c1 (A B C W : Nat) (qs ss : List Nat) (k : Nat)
    (hq : (run_simulation A B C W).map SimResults.weekly_queue_lengths = some qs)
    (hs : (run_simulation A B C W).map SimResults.weekly_surgeries = some ss)
    (hk1 : 1 ≤ k) (hk2 : k < qs.length) :
    qs.getD k 0 = qs.getD (k - 1) 0 + A - ss.getD k 0 ∧
    ss.getD k 0 ≤ qs.getD (k - 1) 0 + A := by
  obtain ⟨r, hr, hql, hsrv, _, _, _, _⟩ := run_simulation_facts A B C W
  rw [hr, Option.map_some'] at hq hs
  injection hq with hq
  injection hs with hs
  subst hq
  subst hs
  rw [hql] at hk2 ⊢
  rw [hsrv]
  have hlen : k < W + 1 := by rwa [List.length_map, List.length_range] at hk2
  obtain ⟨j, rfl⟩ : ∃ j, k = j + 1 := ⟨k - 1, by omega⟩
  rw [getD_map_range 0 (W + 1) (j + 1) (qAfter ⟨A, B, C⟩) hlen,
    getD_map_range 0 (W + 1) (j + 1 - 1) (qAfter ⟨A, B, C⟩) (by omega),
    getD_map_range 0 (W + 1) (j + 1) (srvAt ⟨A, B, C⟩) hlen,
    Nat.add_sub_cancel, qAfter_succ, srvAt_succ,
    show (⟨A, B, C⟩ : Params).avgArrivals = A from rfl]
  exact ⟨rfl, Nat.min_le_right _ _⟩

/-- Witness for C1 at `arrivals=15, backlog=0, capacity=10, horizon=2`,
period `k = 1`. -/
theorem claim_c1_witness :
    [5, 10, 15].getD 1 0 = [5, 10, 15].getD 0 0 + 15 - [10, 10, 10].getD 1 0 ∧
    [10, 10, 10].getD 1 0 ≤ [5, 10, 15].getD 0 0 + 15 :=
  claim_c1 15 0 10 2 [5, 10, 15] [10, 10, 10] 1 (by decide) (by decide) (by decide)
    (by decide)

/-- C2: the executed-event log of every run is exactly
arrival₀, service₀, arrival₁, service₁, …: in every period `k ≤ W` the
arrival event (index `2k`, time `7k`) executes before the service event
(index `2k+1`, same time `7k`), so the drain observes the queue after the
period-`k` batch; accordingly the served count each period is
`min capacity (previous queue length + arrivals)` — same-period arrivals
are eligible for same-period service. -/
theorem claim_c2 (p : Params) (W : Nat) :
    (runEvents p (7 * W + 1) (2 * W + 2) (initState p)).map SimState.execLog =
      some (execLogAt W) ∧
    (runEvents p (7 * W + 1) (2 * W + 2) (initState p)).map
        (fun s => s.core.srv) = some ((List.range (W + 1)).map (srvAt p)) ∧
    (∀ k, k ≤ W →
      (execLogAt W).getD (2 * k) default = arrEv k ∧
      (execLogAt W).getD (2 * k + 1) default = srvEv k) ∧
    (execLogAt W).length = 2 * (W + 1) ∧
    (∀ k, (arrEv k).time = 7 * k ∧ (srvEv k).time = 7 * k ∧
      (arrEv k).proc = Proc.arrival ∧ (srvEv k).proc = Proc.service) ∧
    srvAt p 0 = min p.slots (p.initQ + p.avgArrivals) ∧
    (∀ k, srvAt p (k + 1) = min p.slots (qAfter p k + p.avgArrivals)) := by
  obtain ⟨c, hc, hinv⟩ := coreRun_facts p W
  have h := runEvents_init_eq p W 0
  rw [hc] at h
  refine ⟨?_, ?_, execLogAt_getD W, execLogAt_length W, ?_, srvAt_zero p,
    fun k => srvAt_succ p k⟩
  · rw [show (2 * W + 2 : Nat) = 2 * W + 2 + 0 from rfl, h]
    rfl
  · rw [show (2 * W + 2 : Nat) = 2 * W + 2 + 0 from rfl, h]
    show some c.srv = _
    rw [hinv.2.2.2.1]
  · intro k
    exact ⟨rfl, rfl, rfl, rfl⟩

/-- Witness for C2 at `p = ⟨1,0,1⟩, W = 1, k = 1`. -/
theorem claim_c2_witness :
    (execLogAt 1).getD 2 default = arrEv 1 ∧
    (execLogAt 1).getD 3 default = srvEv 1 ∧
    (arrEv 1).time = 7 ∧ (srvEv 1).proc = Proc.service :=
  ⟨((claim_c2 ⟨1, 0, 1⟩ 1).2.2.1 1 (by decide)).1,
   ((claim_c2 ⟨1, 0, 1⟩ 1).2.2.1 1 (by decide)).2,
   ((claim_c2 ⟨1, 0, 1⟩ 1).2.2.2.2.1 1).1,
   ((claim_c2 ⟨1, 0, 1⟩ 1).2.2.2.2.1 1).2.2.2⟩

/-- C3 (counterexample): with `arrivals=0, backlog=50, capacity=12,
horizon=5` the recorded queue-length sequence is `[38,26,14,2,0,0]` (six
period records — service rounds run at t = 0,7,…,35), not the claimed
five-element `[38,26,14,2,0]`; in particular the last period serves 0, not
2. -/
theorem claim_c3_cex :
    (run_simulation 0 50 12 5).map SimResults.weekly_queue_lengths ≠
      some [38, 26, 14, 2, 0] ∧
    (run_simulation 0 50 12 5).map SimResults.weekly_queue_lengths =
      some [38, 26, 14, 2, 0, 0] ∧
    (run_simulation 0 50 12 5).map SimResults.weekly_surgeries ≠
      some [12, 12, 12, 12, 2] := by
  decide

/-- C3 (amended): the scenario yields six period records: queue lengths
`[38,26,14,2,0,0]`, served `[12,12,12,12,2,0]` (the fifth period serves the
final 2 entities, the sixth serves 0), `total_served = 50`, final queue
length 0. -/
theorem claim_c3 :
    (run_simulation 0 50 12 5).map SimResults.weekly_queue_lengths =
      some [38, 26, 14, 2, 0, 0] ∧
    (run_simulation 0 50 12 5).map SimResults.weekly_surgeries =
      some [12, 12, 12, 12, 2, 0] ∧
    (run_simulation 0 50 12 5).map SimResults.total_surgeries = some 50 ∧
    (run_simulation 0 50 12 5).map SimResults.final_queue_length = some 0 := by
  decide

/-- C4: every run with positive horizon terminates — the scheduler result
is unchanged by extra fuel — and the final service round occurs at
simulated time `7·W`: the final state's clock is `7·W`, it holds `W+1`
period records and `2(W+1)` executed events ending with the week-`W`
service event, and every still-pending event lies strictly after `7·W`
(no event executes after the final round). -/
theorem claim_c4 (p : Params) (W f : Nat) (hW : 1 ≤ W) :
    runEvents p (7 * W + 1) (2 * W + 2 + f) (initState p) =
      runEvents p (7 * W + 1) (2 * W + 2) (initState p) ∧
    (runEvents p (7 * W + 1) (2 * W + 2) (initState p)).map
        (fun s => (s.now, s.core.qLens.length, s.execLog.length)) =
      some (7 * W, W + 1, 2 * (W + 1)) ∧
    (runEvents p (7 * W + 1) (2 * W + 2) (initState p)).map
        (fun s => s.execLog.getD (2 * W + 1) default) = some (srvEv W) ∧
    (∀ s, runEvents p (7 * W + 1) (2 * W + 2) (initState p) = some s →
      ∀ e ∈ s.events, 7 * W < e.time) ∧
    (srvEv W).time = 7 * W ∧ (srvEv W).proc = Proc.service := by
  obtain ⟨c, hc, hinv⟩ := coreRun_facts p W
  have h0 := runEvents_init_eq p W 0
  have hf := runEvents_init_eq p W f
  rw [hc] at h0 hf
  have h2 : runEvents p (7 * W + 1) (2 * W + 2) (initState p) = some (mkState W c) := by
    rw [show (2 * W + 2 : Nat) = 2 * W + 2 + 0 from rfl]
    exact h0
  refine ⟨by rw [hf, h2]; rfl, ?_, ?_, ?_, rfl, rfl⟩
  · rw [h2]
    show some (7 * W, c.qLens.length, (execLogAt W).length) = _
    rw [hinv.2.2.1, List.length_map, List.length_range, execLogAt_length]
  · rw [h2]
    show some ((execLogAt W).getD (2 * W + 1) default) = _
    rw [(execLogAt_getD W W le_rfl).2]
  · intro s hs e he
    rw [h2] at hs
    injection hs with hs
    subst hs
    simp only [mkState, List.mem_cons, List.not_mem_nil, or_false] at he
    rcases he with rfl | rfl
    · show 7 * W < 7 * W + 7
      omega
    · show 7 * W < 7 * W + 7
      omega

/-- Witness for C4 at `p = ⟨1,0,1⟩, W = 1, f = 1`. -/
theorem claim_c4_witness :
    runEvents ⟨1, 0, 1⟩ 8 5 (initState ⟨1, 0, 1⟩) =
      runEvents ⟨1, 0, 1⟩ 8 4 (initState ⟨1, 0, 1⟩) ∧
    (runEvents ⟨1, 0, 1⟩ 8 4 (initState ⟨1, 0, 1⟩)).map
        (fun s => (s.now, s.core.qLens.length, s.execLog.length)) = some (7, 2, 4) :=
  ⟨(claim_c4 ⟨1, 0, 1⟩ 1 1 (by decide)).1, (claim_c4 ⟨1, 0, 1⟩ 1 1 (by decide)).2.1⟩

/-- C5 (counterexample): a zero horizon is not rejected as an
invalid-configuration error — the run completes and returns a result. -/
theorem claim_c5_cex : (run_simulation_checked 1 1 1 0).toOption.isSome = true := by
  decide

/-- C5 (amended): only a negative horizon is rejected (the scheduler's
`until ≤ current time` check fires before any event is processed); any
horizon ≥ 0 — including zero — raises no error and returns a result. -/
theorem claim_c5 (A B C : Nat) (W : Int) :
    (W < 0 → run_simulation_checked A B C W =
      Except.error "until must be greater than the current simulation time") ∧
    (0 ≤ W →
      (run_simulation_checked A B C W).toOption = run_simulation A B C W.toNat ∧
      (run_simulation A B C W.toNat).isSome = true) := by
  constructor
  · intro hW
    rw [run_simulation_checked, if_pos (by omega)]
  · intro hW
    obtain ⟨r, hr, _⟩ := run_simulation_facts A B C W.toNat
    rw [run_simulation_checked, if_neg (by omega), hr]
    exact ⟨rfl, rfl⟩

/-- Witness for C5 at horizons `-1` and `0`. -/
theorem claim_c5_witness :
    run_simulation_checked 1 1 1 (-1) =
      Except.error "until must be greater than the current simulation time" ∧
    (run_simulation 1 1 1 ((0 : Int)).toNat).isSome = true :=
  ⟨(claim_c5 1 1 1 (-1)).1 (by decide), ((claim_c5 1 1 1 0).2 (by decide)).2⟩

/-- C6: the entity-id allocator is strictly increasing within a run (the
j-th call starting from counter `c` returns `c + j + 1`), a fresh run
starts from the zero counter, and the runner's behaviour is independent of
whatever global state an earlier run left behind (no cross-run leakage). -/
theorem claim_c6 :
    (∀ c j1 j2 : Nat, j1 < j2 → nthId c j1 < nthId c j2) ∧
    (∀ p : Params, (initState p).core.nid = 0) ∧
    (∀ (g1 g2 : Globals) (A B C W : Nat),
      run_simulation_g g1 A B C W = run_simulation_g g2 A B C W) := by
  refine ⟨?_, fun p => rfl, fun g1 g2 A B C W => rfl⟩
  intro c j1 j2 hj
  rw [nthId_eq, nthId_eq]
  omega

/-- Witness for C6. -/
theorem claim_c6_witness :
    nthId 0 0 < nthId 0 3 ∧ (initState ⟨1, 2, 3⟩).core.nid = 0 ∧
    run_simulation_g ⟨[(1, 0)], [5], [7], [9], 42⟩ 1 1 1 1 =
      run_simulation_g ⟨[], [], [], [], 0⟩ 1 1 1 1 :=
  ⟨claim_c6.1 0 0 3 (by decide), claim_c6.2.1 ⟨1, 2, 3⟩,
    claim_c6.2.2 ⟨[(1, 0)], [5], [7], [9], 42⟩ ⟨[], [], [], [], 0⟩ 1 1 1 1⟩

/-- C7: calling the runner twice with identical arguments yields identical
results; the result ignores the incoming global state and equals the pure
`run_simulation`; and a baseline call followed by an intervention call with
a different capacity each equal the corresponding isolated single call —
no state survives between calls. -/
theorem claim_c7 :
    (∀ (g1 g2 : Globals) (A B C W : Nat),
        (run_simulation_g g1 A B C W).1 = (run_simulation_g g2 A B C W).1) ∧
    (∀ (g : Globals) (A B C W : Nat),
        (run_simulation_g g A B C W).1 = run_simulation A B C W) ∧
    (∀ (g : Globals) (A B C1 C2 W : Nat),
        (run_simulation_g g A B C1 W).1 = run_simulation A B C1 W ∧
        (run_simulation_g (run_simulation_g g A B C1 W).2 A B C2 W).1 =
          run_simulation A B C2 W) :=
  ⟨fun g1 g2 A B C W => rfl,
   fun g A B C W => run_g_fst g A B C W,
   fun g A B C1 C2 W => ⟨run_g_fst g A B C1 W, run_g_fst _ A B C2 W⟩⟩

/-- C8: at every point of a run the identifiers in the queue are exactly
the keys of the arrival-time map (in order, without duplicates, all issued
by the allocator): the property holds initially, is preserved by every
arrival-process resumption and by every scheduler step, is preserved by
each service drain, and under it the drain's map removal (one entry,
exactly at dequeue) never fails. -/
theorem claim_c8 :
    (∀ p : Params, QueueMapInv (initState p).core) ∧
    (∀ (p : Params) (t : Nat) (b : Bool) (c : CoreState),
        QueueMapInv c → QueueMapInv (arrivalExec p t b c)) ∧
    (∀ (p : Params) (s t : SimState),
        QueueMapInv s.core → step p s = some t → QueueMapInv t.core) ∧
    (∀ (slots now : Nat) (c d : CoreState),
        QueueMapInv c → serveCore slots now c = some d → QueueMapInv d) ∧
    (∀ (slots now : Nat) (c : CoreState),
        QueueMapInv c → ∃ d, serveCore slots now c = some d) := by
  refine ⟨?_, arrivalExec_inv, step_inv, serveCore_inv, serveCore_success⟩
  intro p
  exact ⟨rfl, List.nodup_nil, fun pid h => absurd h (List.not_mem_nil pid)⟩

/-- Witness for C8 on concrete states. -/
theorem claim_c8_witness :
    QueueMapInv (initState ⟨1, 2, 3⟩).core ∧
    QueueMapInv (arrivalExec ⟨1, 2, 3⟩ 0 false initCore) ∧
    QueueMapInv (midState0 ⟨1, 2, 3⟩).core ∧
    QueueMapInv (⟨[], [], [0], [0], [1], 1⟩ : CoreState) :=
  ⟨claim_c8.1 ⟨1, 2, 3⟩,
   claim_c8.2.1 ⟨1, 2, 3⟩ 0 false initCore (by decide),
   claim_c8.2.2.1 ⟨1, 2, 3⟩ (initState ⟨1, 2, 3⟩) (midState0 ⟨1, 2, 3⟩) (by decide)
     (by decide),
   claim_c8.2.2.2.1 1 0 (enqueueCore 0 1 initCore) ⟨[], [], [0], [0], [1], 1⟩
     (by decide) (by decide)⟩

/-- C9: the reported mean waiting time is 0 — not an error — whenever no
waits were recorded, and a zero-capacity run (no service events) completes
normally, returning empty waits, mean 0 and zero total served. -/
theorem claim_c9 :
    (∀ (A B C W : Nat) (waits : List Int) (q : ℚ),
        (run_simulation A B C W).map SimResults.wait_times = some waits →
        (run_simulation A B C W).map SimResults.avg_wait_time = some q →
        waits = [] → q = 0) ∧
    (∀ A B W : Nat,
        (run_simulation A B 0 W).map SimResults.wait_times = some [] ∧
        (run_simulation A B 0 W).map SimResults.avg_wait_time = some 0 ∧
        (run_simulation A B 0 W).map SimResults.total_surgeries = some 0) := by
  constructor
  · intro A B C W waits q hw hq hempty
    obtain ⟨r, hr, _, _, _, _, _, havg⟩ := run_simulation_facts A B C W
    rw [hr, Option.map_some'] at hw hq
    injection hw with hw
    injection hq with hq
    subst hw
    subst hq
    exact havg hempty
  · intro A B W
    obtain ⟨r, hr, _, _, htot, _, hwlen, havg⟩ := run_simulation_facts A B 0 W
    have hzero : ((List.range (W + 1)).map (srvAt ⟨A, B, 0⟩)).sum = 0 := by
      apply List.sum_eq_zero
      intro x hx
      obtain ⟨i, _, rfl⟩ := List.mem_map.mp hx
      exact srvAt_slots_zero A B i
    have htotz : r.total_surgeries = 0 := by rw [htot, hzero]
    have hwem : r.wait_times = [] := by
      have hl := hwlen
      rw [htotz] at hl
      exact List.length_eq_zero.mp hl
    refine ⟨?_, ?_, ?_⟩ <;> rw [hr, Option.map_some']
    · rw [hwem]
    · rw [havg hwem]
    · rw [htotz]

/-- Witness for C9. -/
theorem claim_c9_witness :
    (0 : ℚ) = 0 ∧ (run_simulation 1 1 0 1).map SimResults.wait_times = some [] :=
  ⟨claim_c9.1 0 0 5 1 [] 0 (by decide) (by decide) rfl, (claim_c9.2 1 1 1).1⟩

/-- C10: entity conservation — the initial backlog plus arrivals-per-period
times the number of period records equals total served plus the final
queue length, and total served equals the number of recorded waits. -/
theorem claim_c10 (A B C W : Nat) (qs : List Nat) (total fin : Nat) (waits : List Int)
    (h1 : (run_simulation A B C W).map SimResults.weekly_queue_lengths = some qs)
    (h2 : (run_simulation A B C W).map SimResults.total_surgeries = some total)
    (h3 : (run_simulation A B C W).map SimResults.final_queue_length = some fin)
    (h4 : (run_simulation A B C W).map SimResults.wait_times = some waits) :
    B + A * qs.length = total + fin ∧ total = waits.length := by
  obtain ⟨r, hr, hql, _, htot, hfin, hwlen, _⟩ := run_simulation_facts A B C W
  rw [hr, Option.map_some'] at h1 h2 h3 h4
  injection h1 with h1
  injection h2 with h2
  injection h3 with h3
  injection h4 with h4
  subst h1
  subst h2
  subst h3
  subst h4
  constructor
  · have hlen : r.weekly_queue_lengths.length = W + 1 := by
      rw [hql, List.length_map, List.length_range]
    rw [hlen, htot, hfin]
    exact conservation ⟨A, B, C⟩ W
  · exact hwlen.symm

/-- Witness for C10 at `arrivals=1, backlog=2, capacity=1, horizon=1`. -/
theorem claim_c10_witness :
    2 + 1 * [2, 2].length = 2 + 2 ∧ 2 = [(0 : Int), 7].length :=
  claim_c10 1 2 1 1 [2, 2] 2 2 [0, 7] (by decide) (by decide) (by decide) (by decide)

end SurgQueue
